import Mathlib

/-!
# Prerender cache: the request pipeline of `prerender.go`

A shallow embedding of `handler`, `parseUrl`, `startDb`,
`checkForExistingPrerender`, `fetchPrerender` and `checkError`.

* The SQLite table `prerender(id, url, updated, html)` is a list of rows.
* Everything the program does to the outside (SQLite calls, the HEAD probe,
  the browser automation calls, the HTTP response) is recorded in a trace.
* A Go panic (`log.Panic` in `checkError`, a nil dereference, an index out of
  range) ends the run with no value; deferred calls still run.
* What the outside answers (errors of SQLite calls, the probe, the browser
  steps, the clock) is given by a `World`; the two standard-library functions
  whose results the program branches on (`regexp.Compile`, `time.Parse`) are
  given by a `StdLib`.
* SQLite: a query without `order by` scans the table in rowid order, and an
  insert without id takes the largest rowid plus one (1 in an empty table).
* The clock does not run backwards within a request.
* A compiled regular expression is its syntax tree; matching is defined by
  derivatives, each zero-width assertion being decided from the two characters
  next to the position.
-/

namespace Prerender

/-! ## Data model -/

/-- One row of the table `prerender (id integer not null primary key, url text,
updated text, html text)`. -/
structure Row where
  id : Int
  url : String
  updated : Int
  html : String
deriving DecidableEq, Repr

/-- The SQLite calls of the program that can return an error. -/
inductive DbOp where
  | sqlOpen
  | createTable
  | query
  | scan
  | rowsErr
  | delete
  | insert
deriving DecidableEq, Repr, Fintype

/-- The fallible calls of `fetchPrerender`, in source order. -/
inductive BrowserStep where
  | tempDir
  | start
  | newTab
  | getTab
  | activateTab
  | navigate
  | waitStable
  | getPageSource
  | shutdown
deriving DecidableEq, Repr, Fintype

/-- Outcome of `http.Head(url)`: an error, or a response whose `Last-Modified`
header is absent (`none`) or has a first value. -/
inductive Probe where
  | failed
  | response (lastModified : Option String)
deriving DecidableEq, Repr

/-- Observable actions, in the order the program performs them. The
constructors `parseUrl` and `fetchPrerender` mark the entry into the function
of that name. -/
inductive Event where
  | parseUrl (host path : String)
  | sqlOpen
  | createTable
  | query (url : String)
  | rowsClose
  | head (url : String)
  | delete (id : Int)
  | fetchPrerender (chromeHost chromePort url : String)
  | browser (step : BrowserStep)
  | insert (url html : String)
  | dbClose
  | httpError (status : Nat)
  | write (body : String)
deriving DecidableEq, Repr

/-- Answers of the outside during one request. -/
structure World where
  /-- whether the given SQLite call returns an error -/
  dbErr : DbOp → Bool
  /-- outcome of the HEAD request to the origin -/
  probe : Probe
  /-- whether the given browser automation call returns an error -/
  browserErr : BrowserStep → Bool
  /-- result of `tab.GetPageSource` -/
  pageSource : String
  /-- the clock (Unix seconds) when the request begins -/
  began : Int
  /-- seconds that pass between the beginning of the request and the
  evaluation of `strftime('%s', 'now')` in the insert statement -/
  elapsed : Nat

/-- Result of running a piece of the program: the returned value (`none` when
the goroutine panicked), the table afterwards, and the actions performed. -/
structure Run (α : Type) where
  value : Option α
  store : List Row
  trace : List Event
deriving DecidableEq, Repr

/-! ## Runs: value, table and trace -/

/-- A piece of program: from the table before to a `Run`. -/
def M (α : Type) : Type := List Row → Run α

/-- Return without any action. -/
def M.pure {α : Type} (a : α) : M α := fun s => ⟨some a, s, []⟩

/-- Sequencing: a panic in the first part skips the second. -/
def M.bind {α β : Type} (m : M α) (f : α → M β) : M β := fun s =>
  match m s with
  | ⟨none, s1, t1⟩ => ⟨none, s1, t1⟩
  | ⟨some a, s1, t1⟩ =>
    match f a s1 with
    | ⟨v, s2, t2⟩ => ⟨v, s2, t1 ++ t2⟩

instance : Monad M where
  pure := M.pure
  bind := M.bind

/-- Record one action. -/
def emit (e : Event) : M Unit := fun s => ⟨some (), s, [e]⟩

/-- A Go panic. -/
def goPanic {α : Type} : M α := fun s => ⟨none, s, []⟩

/-- The table as it is now. -/
def getStore : M (List Row) := fun s => ⟨some s, s, []⟩

/-- Replace the table. -/
def setStore (s : List Row) : M Unit := fun _ => ⟨some (), s, []⟩

/-- Go `defer fin` followed by `body`: `fin` runs when `body` returns and also
when it panics. -/
def deferred {α : Type} (fin : M Unit) (body : M α) : M α := fun s =>
  match body s with
  | ⟨v, s1, t1⟩ =>
    match fin s1 with
    | ⟨_, s2, t2⟩ => ⟨v, s2, t1 ++ t2⟩

/-- Source `checkError`: panic when the error is not nil. -/
def checkError (err : Bool) : M Unit :=
  if err then goPanic else pure ()

/-! ## The table -/

/-- Result of `select * from prerender where url = ? limit 1`: SQLite scans
the table in rowid order, so the matching row with the smallest id. -/
def selectByUrl (s : List Row) (url : String) : Option Row :=
  (s.filter (fun r => r.url == url)).foldl
    (fun acc r =>
      match acc with
      | none => some r
      | some a => if r.id < a.id then some r else some a)
    none

/-- Effect of `delete from prerender where id = ?`. -/
def deleteById (s : List Row) (id : Int) : List Row :=
  s.filter (fun r => r.id != id)

/-- Largest id in the table, if any. -/
def maxRowid : List Row → Option Int
  | [] => none
  | r :: rs =>
    match maxRowid rs with
    | none => some r.id
    | some m => some (max r.id m)

/-- Rowid SQLite gives to a row inserted without an id: 1 in an empty table,
else one more than the largest id in use (ids of deleted rows are reused; the
table is assumed to stay below the largest 64-bit rowid). -/
def nextRowid (s : List Row) : Int :=
  match maxRowid s with
  | none => 1
  | some m => m + 1

/-- Effect of `insert into prerender(url, html, updated) values(?, ?,
strftime('%s', 'now'))` when the clock shows `now`. -/
def insertRow (s : List Row) (url html : String) (now : Int) : List Row :=
  s ++ [⟨nextRowid s, url, now, html⟩]

/-- Value of `strftime('%s', 'now')` at the insert statement. -/
def World.now (w : World) : Int := w.began + w.elapsed

/-! ## The program: store access and render fetch -/

/-- Source `startDb`. -/
def startDb (w : World) : M Unit := do
  emit .sqlOpen
  checkError (w.dbErr .sqlOpen)
  emit .createTable
  checkError (w.dbErr .createTable)

/-- Source `checkForExistingPrerender`: the variables `id`, `html`, `updated`
keep their zero values when no row is scanned. -/
def checkForExistingPrerender (w : World) (url : String) :
    M (Bool × Int × String × Int) := do
  emit (.query url)
  checkError (w.dbErr .query)
  deferred (emit .rowsClose) do
    let s ← getStore
    let row := selectByUrl s url
    match row with
    | some _ => checkError (w.dbErr .scan)
    | none => pure ()
    checkError (w.dbErr .rowsErr)
    let id := match row with
      | some r => r.id
      | none => 0
    let html := match row with
      | some r => r.html
      | none => ""
    let updated := match row with
      | some r => r.updated
      | none => 0
    return (decide (id > 0), id, html, updated)

/-- One fallible browser call followed by `checkError`. -/
def browserStep (w : World) (st : BrowserStep) : M Unit := do
  emit (.browser st)
  checkError (w.browserErr st)

/-- Source `randUserDir`: `ioutil.TempDir` followed by `checkError`. -/
def randUserDir (w : World) : M Unit :=
  browserStep w .tempDir

/-- Source `configureTab`: it sets the navigation timeout and the stability
time and makes no fallible call. -/
def configureTab : M Unit :=
  pure ()

/-- Source `fetchPrerender`. The settings take the directory of `randUserDir`
before the session starts; `auto.Shutdown()` is the last call of the body and
is not deferred. -/
def fetchPrerender (w : World) (chromeHost chromePort url : String) : M String := do
  emit (.fetchPrerender chromeHost chromePort url)
  randUserDir w
  browserStep w .start
  browserStep w .newTab
  browserStep w .getTab
  browserStep w .activateTab
  configureTab
  browserStep w .navigate
  browserStep w .waitStable
  browserStep w .getPageSource
  browserStep w .shutdown
  return w.pageSource

/-- Unix time of the zero `time.Time`, which `time.Parse` returns with its
error. -/
def zeroTimeUnix : Int := -62135596800

/-! ## Regular expressions (package `regexp`) -/

/-- Syntax tree of a compiled regular expression, after the operators of
`regexp/syntax` (counted repetition expanded, case folding turned into
character classes). -/
inductive Regex where
  | noMatch
  | emptyMatch
  | literal (c : Char)
  | charClass (ranges : List (Char × Char))
  | anyCharNotNL
  | anyChar
  | beginLine
  | endLine
  | beginText
  | endText
  | wordBoundary
  | noWordBoundary
  | capture (r : Regex)
  | star (r : Regex)
  | plus (r : Regex)
  | quest (r : Regex)
  | concat (r s : Regex)
  | alternate (r s : Regex)
deriving DecidableEq, Repr

/-- Word characters of the assertion `\b`: ASCII letters, digits, underscore. -/
def isWordChar (c : Char) : Bool :=
  c.isAlphanum || c == '_'

/-- Whether the character next to a position (if any) is a word character. -/
def isWordAt : Option Char → Bool
  | none => false
  | some c => isWordChar c

/-- Whether the expression matches the empty string at a position whose
neighbours are `prev` (none at the beginning of the text) and `next` (none at
the end of the text). -/
def Regex.nullable (prev next : Option Char) : Regex → Bool
  | .noMatch => false
  | .emptyMatch => true
  | .literal _ => false
  | .charClass _ => false
  | .anyCharNotNL => false
  | .anyChar => false
  | .beginLine => prev == none || prev == some '\n'
  | .endLine => next == none || next == some '\n'
  | .beginText => prev == none
  | .endText => next == none
  | .wordBoundary => isWordAt prev != isWordAt next
  | .noWordBoundary => isWordAt prev == isWordAt next
  | .capture r => r.nullable prev next
  | .star _ => true
  | .plus r => r.nullable prev next
  | .quest _ => true
  | .concat r s => r.nullable prev next && s.nullable prev next
  | .alternate r s => r.nullable prev next || s.nullable prev next

/-- Brzozowski derivative: what remains to be matched after reading `c` at a
position whose left neighbour is `prev`. -/
def Regex.deriv (prev : Option Char) (c : Char) : Regex → Regex
  | .noMatch => .noMatch
  | .emptyMatch => .noMatch
  | .literal a => if a = c then .emptyMatch else .noMatch
  | .charClass ranges =>
    if ranges.any (fun lohi => decide (lohi.1 ≤ c) && decide (c ≤ lohi.2)) then .emptyMatch
    else .noMatch
  | .anyCharNotNL => if c = '\n' then .noMatch else .emptyMatch
  | .anyChar => .emptyMatch
  | .beginLine => .noMatch
  | .endLine => .noMatch
  | .beginText => .noMatch
  | .endText => .noMatch
  | .wordBoundary => .noMatch
  | .noWordBoundary => .noMatch
  | .capture r => r.deriv prev c
  | .star r => .concat (r.deriv prev c) (.star r)
  | .plus r => .concat (r.deriv prev c) (.star r)
  | .quest r => r.deriv prev c
  | .concat r s =>
    if r.nullable prev (some c) then .alternate (.concat (r.deriv prev c) s) (s.deriv prev c)
    else .concat (r.deriv prev c) s
  | .alternate r s => .alternate (r.deriv prev c) (s.deriv prev c)

/-- Whether the expression matches exactly the text `mid`, standing between
the neighbours `prev` and `next`. -/
def Regex.matchesIn (re : Regex) (prev : Option Char) : List Char → Option Char → Bool
  | [], next => re.nullable prev next
  | c :: cs, next => Regex.matchesIn (re.deriv prev c) (some c) cs next

/-- Whether the expression matches a (possibly empty) text starting at the
current position, `rest` being the text from there to the end. -/
def Regex.matchesHere (re : Regex) (prev : Option Char) : List Char → Bool
  | [] => re.nullable prev none
  | c :: cs => re.nullable prev (some c) || Regex.matchesHere (re.deriv prev c) (some c) cs

/-- Unanchored search: try every start position from left to right. -/
def Regex.searchFrom (re : Regex) (prev : Option Char) : List Char → Bool
  | [] => re.matchesHere prev []
  | c :: cs => re.matchesHere prev (c :: cs) || Regex.searchFrom re (some c) cs

/-- Whether `regex.FindStringSubmatchIndex(host)` has a non-zero length, that
is, whether the expression matches somewhere in `host`. -/
def Regex.found (re : Regex) (host : String) : Bool :=
  re.searchFrom none host.toList

/-- Expressions without zero-width assertions (`^`, `$`, `\A`, `\z`, `\b`,
`\B`). -/
def Regex.anchorFree : Regex → Bool
  | .beginLine => false
  | .endLine => false
  | .beginText => false
  | .endText => false
  | .wordBoundary => false
  | .noWordBoundary => false
  | .capture r => r.anchorFree
  | .star r => r.anchorFree
  | .plus r => r.anchorFree
  | .quest r => r.anchorFree
  | .concat r s => r.anchorFree && s.anchorFree
  | .alternate r s => r.anchorFree && s.anchorFree
  | _ => true

/-- The two standard-library functions whose results the program branches on. -/
structure StdLib where
  /-- the function `regexp.Compile`: `none` is its error result (a nil
  `*Regexp`) -/
  regexpCompile : String → Option Regex
  /-- the Unix seconds of `time.Parse(time.RFC1123, header)`, `none` when the
  header does not parse -/
  timeParse : String → Option Int

/-! ## A reference compiler for a fragment of the pattern syntax -/

/-- State of the reference parser inside one pair of parentheses. -/
structure Frame where
  /-- finished alternatives, most recent first -/
  alts : List Regex
  /-- pieces of the current alternative, most recent first -/
  pieces : List Regex
  /-- whether the last piece may take a repetition operator -/
  repeatable : Bool

/-- Concatenation of pieces given most recent first. -/
def concatAll : List Regex → Regex
  | [] => .emptyMatch
  | [r] => r
  | r :: rs => .concat (concatAll rs) r

/-- The expression a frame stands for. -/
def Frame.close (f : Frame) : Regex :=
  f.alts.foldl (fun acc a => .alternate a acc) (concatAll f.pieces)

/-- Add an atom to the current alternative. -/
def Frame.push (f : Frame) (r : Regex) : Frame :=
  ⟨f.alts, r :: f.pieces, true⟩

/-- Apply a repetition operator to the last piece; `none` when there is no
piece to repeat or the last piece is already a repetition. -/
def Frame.repeatLast (f : Frame) (op : Regex → Regex) : Option Frame :=
  match f.repeatable, f.pieces with
  | true, r :: rs => some ⟨f.alts, op r :: rs, false⟩
  | _, _ => none

/-- Parser loop: the pattern left to read, the enclosing frames, the current
frame. -/
def parseLoop : List Char → List Frame → Frame → Option Regex
  | [], [], cur => some cur.close
  | [], _ :: _, _ => none
  | c :: rest, stack, cur =>
    if c = '\\' then
      match rest with
      | [] => none
      | e :: rest2 =>
        if e.toNat < 128 && !e.isAlphanum then parseLoop rest2 stack (cur.push (.literal e))
        else none
    else if c = '(' then parseLoop rest (cur :: stack) ⟨[], [], false⟩
    else if c = ')' then
      match stack with
      | [] => none
      | parent :: stack2 => parseLoop rest stack2 (parent.push (.capture cur.close))
    else if c = '|' then parseLoop rest stack ⟨concatAll cur.pieces :: cur.alts, [], false⟩
    else if c = '*' then
      match cur.repeatLast .star with
      | none => none
      | some f => parseLoop rest stack f
    else if c = '+' then
      match cur.repeatLast .plus with
      | none => none
      | some f => parseLoop rest stack f
    else if c = '?' then
      match cur.repeatLast .quest with
      | none => none
      | some f => parseLoop rest stack f
    else if c = '.' then parseLoop rest stack (cur.push .anyCharNotNL)
    else if c = '^' then parseLoop rest stack (cur.push .beginText)
    else if c = '$' then parseLoop rest stack (cur.push .endText)
    else if c = '[' || c = '{' then none
    else parseLoop rest stack (cur.push (.literal c))

/-- Reference implementation of `regexp.Compile` on a fragment of its syntax:
literal characters, backslash followed by an ASCII punctuation character, `.`,
`^`, `$`, grouping with parentheses, `|`, and one of `*`, `+`, `?` after a
piece. On a pattern of the fragment it returns the expression Go compiles, and
`none` where Go reports a syntax error (unbalanced parenthesis, repetition
without argument, trailing backslash). It also answers `none` on syntax outside
the fragment (classes, counted or non-greedy repetition, flags, letter
escapes), where it says nothing about Go. -/
def compileFragment (pattern : String) : Option Regex :=
  parseLoop pattern.toList [] ⟨[], [], false⟩

/-! ## The program: cache orchestrator and HTTP handler -/

/-- The cache key built in the buffer of `parseUrl`. -/
def canonicalUrl (host path : String) : String :=
  "https://" ++ host ++ path

/-- The value of `lastModifiedStamp`: the Unix time of the parsed header; the
parse error is discarded, so an unparsable header gives the zero time. -/
def lastModifiedStamp (lib : StdLib) (lastModifiedHeader : String) : Int :=
  (lib.timeParse lastModifiedHeader).getD zeroTimeUnix

/-- Source `parseUrl`. -/
def parseUrl (lib : StdLib) (w : World) (host chromeHost chromePort path : String) :
    M String := do
  emit (.parseUrl host path)
  let url := canonicalUrl host path
  startDb w
  deferred (emit .dbClose) do
    let (entryExists, entryId, entryHTML, entryUpdatedDate) ←
      checkForExistingPrerender w url
    let willUpdatePrerender ←
      if entryExists == false then
        pure true
      else do
        emit (.head url)
        match w.probe with
        | .failed => goPanic
        | .response none => goPanic
        | .response (some lastModifiedHeader) =>
          if lastModifiedStamp lib lastModifiedHeader > entryUpdatedDate then do
            emit (.delete entryId)
            checkError (w.dbErr .delete)
            let s ← getStore
            setStore (deleteById s entryId)
            pure true
          else
            pure false
    if willUpdatePrerender then do
      let htmlToReturn ← fetchPrerender w chromeHost chromePort url
      emit (.insert url htmlToReturn)
      checkError (w.dbErr .insert)
      let s ← getStore
      setStore (insertRow s url htmlToReturn w.now)
      return htmlToReturn
    else
      return entryHTML

/-- An inbound request: whether `r.ParseForm()` returns an error, and the form
values `host` and `path`. -/
structure Request where
  formErr : Bool
  host : String
  path : String

/-- The process environment read by `os.LookupEnv`. -/
structure Environ where
  allowedHosts : Option String
  chromeHost : Option String
  chromePort : Option String

/-- Source `handler`. A nil `regex` (the compile error is discarded) makes
`regex.FindStringSubmatchIndex` panic with a nil dereference. -/
def handler (lib : StdLib) (w : World) (env : Environ) (r : Request) : M Unit := do
  checkError r.formErr
  let host := r.host
  let path := r.path
  let chromeHost := env.chromeHost.getD "localhost"
  match env.allowedHosts with
  | none => emit (.httpError 400)
  | some allowedHosts =>
    let chromePort := env.chromePort.getD "9222"
    match lib.regexpCompile allowedHosts with
    | none => goPanic
    | some regex =>
      if regex.found host == false then
        emit (.httpError 400)
      else do
        let htmlToReturn ← parseUrl lib w host chromeHost chromePort path
        emit (.write htmlToReturn)

/-! ## Vocabulary of the statements -/

/-- Every SQLite call of the request succeeds. -/
def World.dbOk (w : World) : Prop := ∀ op, w.dbErr op = false

/-- The render fetch succeeds with output `h`: no browser call fails and the
page source is `h`. -/
def World.renderSucceeds (w : World) (h : String) : Prop :=
  (∀ st, w.browserErr st = false) ∧ w.pageSource = h

instance (w : World) : Decidable w.dbOk :=
  inferInstanceAs (Decidable (∀ op, w.dbErr op = false))

instance (w : World) (h : String) : Decidable (w.renderSucceeds h) :=
  inferInstanceAs (Decidable ((∀ st, w.browserErr st = false) ∧ w.pageSource = h))

/-- Whether an action is an entry into `fetchPrerender`. -/
def Event.isRender : Event → Bool
  | .fetchPrerender _ _ _ => true
  | _ => false

/-- Whether an action is a HEAD probe. -/
def Event.isHead : Event → Bool
  | .head _ => true
  | _ => false

/-- Whether an action is a delete statement. -/
def Event.isDelete : Event → Bool
  | .delete _ => true
  | _ => false

/-- Whether an action is an insert statement. -/
def Event.isInsert : Event → Bool
  | .insert _ _ => true
  | _ => false

/-- Whether an action belongs to a render fetch. -/
def Event.inFetch : Event → Bool
  | .fetchPrerender _ _ _ => true
  | .browser _ => true
  | _ => false

/-- Number of render fetches in a trace. -/
def renders (t : List Event) : Nat := t.countP Event.isRender

/-- The actions of a render fetch in which every call succeeds. -/
def renderTrace (chromeHost chromePort url : String) : List Event :=
  [.fetchPrerender chromeHost chromePort url, .browser .tempDir, .browser .start,
   .browser .newTab, .browser .getTab, .browser .activateTab, .browser .navigate,
   .browser .waitStable, .browser .getPageSource, .browser .shutdown]

/-- Actions of `parseUrl` up to the end of the lookup. -/
def lookupTrace (host path : String) : List Event :=
  [.parseUrl host path, .sqlOpen, .createTable, .query (canonicalUrl host path), .rowsClose]

/-- Number of rows of the table with the given url. -/
def rowsFor (s : List Row) (url : String) : Nat :=
  s.countP (fun r => r.url == url)

/-- The same request handled twice in succession: the second call starts from
the table the first call left. -/
def requestTwice (lib : StdLib) (w1 w2 : World) (host chromeHost chromePort path : String)
    (s : List Row) : Run String × Run String :=
  (parseUrl lib w1 host chromeHost chromePort path s,
   parseUrl lib w2 host chromeHost chromePort path
     (parseUrl lib w1 host chromeHost chromePort path s).store)

/-- The run started the automation session and ended without shutting it
down. -/
def sessionLeaked (r : Run String) : Prop :=
  Event.browser .start ∈ r.trace ∧ Event.browser .shutdown ∉ r.trace

instance (r : Run String) : Decidable (sessionLeaked r) :=
  inferInstanceAs (Decidable (Event.browser .start ∈ r.trace ∧ Event.browser .shutdown ∉ r.trace))

/-- Whether `handler` lets the request through to `parseUrl`. -/
def handlerAccepts (lib : StdLib) (w : World) (env : Environ) (r : Request) (s : List Row) :
    Bool :=
  (handler lib w env r s).trace.contains (.parseUrl r.host r.path)

/-- Left neighbour of the position after `pre`, when the neighbour before `pre`
is `prev`. -/
def lastOr (prev : Option Char) (pre : List Char) : Option Char :=
  match pre.getLast? with
  | some c => some c
  | none => prev

/-! ## Concrete inputs -/

/-- Sample library answers: the reference compiler, and a date parser that
knows one header. -/
def sampleLib : StdLib :=
  ⟨compileFragment,
   fun hdr => if hdr = "Thu, 01 Jan 1970 00:03:20 GMT" then some 200 else none⟩

/-- Sample answers of the outside: no call fails, the origin was last modified
at second 200, the page renders to a fixed document, the request begins at
second 300 and reaches the insert one second later. -/
def sampleWorld : World :=
  ⟨fun _ => false, .response (some "Thu, 01 Jan 1970 00:03:20 GMT"), fun _ => false,
   "<html>A</html>", 300, 1⟩

/-- Answers of the outside in which the origin reports a modification time
(second 200) later than the clock of the cache (second 100). -/
def skewedWorld : World :=
  ⟨fun _ => false, .response (some "Thu, 01 Jan 1970 00:03:20 GMT"), fun _ => false,
   "<html>A</html>", 100, 0⟩

/-- Answers of the outside in which the navigation fails and every other call
succeeds. -/
def navFailWorld : World :=
  ⟨fun _ => false, .response (some "Thu, 01 Jan 1970 00:03:20 GMT"),
   fun st => decide (st = .navigate), "<html>A</html>", 300, 1⟩

/-- Answers of the outside in which exactly one browser call fails. -/
def failingAt (step : BrowserStep) : World :=
  ⟨fun _ => false, .response none, fun st => decide (st = step), "<html>A</html>", 300, 1⟩

/-- The render fetch on the sample page in which exactly the given browser
call fails. -/
def fetchFailingAt (step : BrowserStep) : Run String :=
  fetchPrerender (failingAt step) "localhost" "9222" "https://example.com/page" []

/-- The expression Go compiles from the pattern `example\.com`. -/
def exampleCom : Regex :=
  concatAll ("moc.elpmaxe".toList.map Regex.literal)

/-! ## Lemmas on the table and on the runs -/

theorem bind_apply {α β : Type} (m : M α) (f : α → M β) (s : List Row) :
    (m >>= f) s = M.bind m f s := rfl

theorem pure_apply {α : Type} (a : α) (s : List Row) :
    (pure a : M α) s = ⟨some a, s, []⟩ := rfl

theorem foldl_pick_some (l : List Row) (a : Row) :
    ∃ b, l.foldl (fun acc r =>
      match acc with
      | none => some r
      | some a => if r.id < a.id then some r else some a) (some a) = some b ∧
      (b = a ∨ b ∈ l) := by
  induction l generalizing a with
  | nil => exact ⟨a, rfl, Or.inl rfl⟩
  | cons x xs ih =>
    simp only [List.foldl_cons]
    by_cases hlt : x.id < a.id
    · obtain ⟨b, hb, hmem⟩ := ih x
      refine ⟨b, by simpa [hlt] using hb, ?_⟩
      rcases hmem with h | h
      · exact Or.inr (by simp [h])
      · exact Or.inr (by simp [h])
    · obtain ⟨b, hb, hmem⟩ := ih a
      refine ⟨b, by simpa [hlt] using hb, ?_⟩
      rcases hmem with h | h
      · exact Or.inl h
      · exact Or.inr (by simp [h])

theorem selectByUrl_eq_none_iff (s : List Row) (u : String) :
    selectByUrl s u = none ↔ ∀ r ∈ s, r.url ≠ u := by
  unfold selectByUrl
  cases hf : s.filter (fun r => r.url == u) with
  | nil =>
    simp only [List.foldl_nil, true_iff]
    intro r hr hu
    have : r ∈ s.filter (fun r => r.url == u) := by simp [List.mem_filter, hr, hu]
    simp [hf] at this
  | cons x xs =>
    simp only [List.foldl_cons]
    obtain ⟨b, hb, -⟩ := foldl_pick_some xs x
    simp only [hb]
    constructor
    · intro h; cases h
    · intro h
      have hx : x ∈ s.filter (fun r => r.url == u) := by simp [hf]
      simp only [List.mem_filter, beq_iff_eq] at hx
      exact absurd hx.2 (h x hx.1)

theorem selectByUrl_some {s : List Row} {u : String} {e : Row}
    (h : selectByUrl s u = some e) : e ∈ s ∧ e.url = u := by
  unfold selectByUrl at h
  cases hf : s.filter (fun r => r.url == u) with
  | nil => simp [hf] at h
  | cons x xs =>
    rw [hf, List.foldl_cons] at h
    obtain ⟨b, hb, hmem⟩ := foldl_pick_some xs x
    simp only [hb, Option.some.injEq] at h
    subst h
    have : b ∈ s.filter (fun r => r.url == u) := by
      rw [hf]; rcases hmem with h | h
      · simp [h]
      · simp [h]
    simpa [List.mem_filter] using this

theorem fetchPrerender_ok (w : World) (ch cp url : String) (s : List Row)
    (hok : ∀ st, w.browserErr st = false) :
    fetchPrerender w ch cp url s = ⟨some w.pageSource, s, renderTrace ch cp url⟩ := by
  simp [fetchPrerender, randUserDir, configureTab, browserStep, checkError, emit, bind_apply,
    M.bind, pure_apply, M.pure, hok, renderTrace]

theorem fetchPrerender_run (w : World) (ch cp url : String) (s : List Row) :
    ∃ v t, fetchPrerender w ch cp url s = ⟨v, s, t⟩ ∧
      t.all Event.inFetch = true ∧ renders t = 1 ∧
      ((v = some w.pageSource ∧ ∀ st, w.browserErr st = false) ∨
       (v = none ∧ ∃ st, w.browserErr st = true)) := by
  by_cases hall : ∀ st, w.browserErr st = false
  · refine ⟨some w.pageSource, renderTrace ch cp url, fetchPrerender_ok w ch cp url s hall,
      by simp [renderTrace, Event.inFetch], by simp [renderTrace, renders, Event.isRender],
      Or.inl ⟨rfl, hall⟩⟩
  · have hex : ∃ st, w.browserErr st = true := by
      by_contra hne
      exact hall (fun st => by
        cases hst : w.browserErr st with
        | false => rfl
        | true => exact absurd ⟨st, hst⟩ hne)
    have key : ∀ (r : Run String), fetchPrerender w ch cp url s = r →
        r.store = s ∧ r.trace.all Event.inFetch = true ∧ renders r.trace = 1 ∧
        (r.value = none ∨ ∀ st, w.browserErr st = false) := by
      intro r hr
      subst hr
      have hsimp : ∀ st, w.browserErr st = true →
          (browserStep w st : M Unit) = fun s => ⟨none, s, [.browser st]⟩ := by
        intro st hst
        funext s
        simp [browserStep, checkError, emit, goPanic, bind_apply, M.bind, hst]
      have hsimp2 : ∀ st, w.browserErr st = false →
          (browserStep w st : M Unit) = fun s => ⟨some (), s, [.browser st]⟩ := by
        intro st hst
        funext s
        simp [browserStep, checkError, emit, bind_apply, M.bind, pure_apply, M.pure, hst]
      cases h1 : w.browserErr .tempDir
      swap
      · simp [fetchPrerender, randUserDir, configureTab, pure_apply, M.pure, hsimp _ h1, emit,
          bind_apply, M.bind, Event.inFetch, renders, Event.isRender]
      cases h2 : w.browserErr .start
      swap
      · simp [fetchPrerender, randUserDir, configureTab, pure_apply, M.pure, hsimp _ h2,
          hsimp2 _ h1, emit, bind_apply, M.bind, Event.inFetch, renders, Event.isRender]
      cases h3 : w.browserErr .newTab
      swap
      · simp [fetchPrerender, randUserDir, configureTab, pure_apply, M.pure, hsimp _ h3,
          hsimp2 _ h1, hsimp2 _ h2, emit, bind_apply, M.bind, Event.inFetch, renders,
          Event.isRender]
      cases h4 : w.browserErr .getTab
      swap
      · simp [fetchPrerender, randUserDir, configureTab, pure_apply, M.pure, hsimp _ h4,
          hsimp2 _ h1, hsimp2 _ h2, hsimp2 _ h3, emit, bind_apply, M.bind, Event.inFetch,
          renders, Event.isRender]
      cases h5 : w.browserErr .activateTab
      swap
      · simp [fetchPrerender, randUserDir, configureTab, pure_apply, M.pure, hsimp _ h5,
          hsimp2 _ h1, hsimp2 _ h2, hsimp2 _ h3, hsimp2 _ h4, emit, bind_apply, M.bind,
          Event.inFetch, renders, Event.isRender]
      cases h6 : w.browserErr .navigate
      swap
      · simp [fetchPrerender, randUserDir, configureTab, pure_apply, M.pure, hsimp _ h6,
          hsimp2 _ h1, hsimp2 _ h2, hsimp2 _ h3, hsimp2 _ h4, hsimp2 _ h5, emit, bind_apply,
          M.bind, Event.inFetch, renders, Event.isRender]
      cases h7 : w.browserErr .waitStable
      swap
      · simp [fetchPrerender, randUserDir, configureTab, pure_apply, M.pure, hsimp _ h7,
          hsimp2 _ h1, hsimp2 _ h2, hsimp2 _ h3, hsimp2 _ h4, hsimp2 _ h5, hsimp2 _ h6, emit,
          bind_apply, M.bind, Event.inFetch, renders, Event.isRender]
      cases h8 : w.browserErr .getPageSource
      swap
      · simp [fetchPrerender, randUserDir, configureTab, pure_apply, M.pure, hsimp _ h8,
          hsimp2 _ h1, hsimp2 _ h2, hsimp2 _ h3, hsimp2 _ h4, hsimp2 _ h5, hsimp2 _ h6,
          hsimp2 _ h7, emit, bind_apply, M.bind, Event.inFetch, renders, Event.isRender]
      cases h9 : w.browserErr .shutdown
      swap
      · simp [fetchPrerender, randUserDir, configureTab, pure_apply, M.pure, hsimp _ h9,
          hsimp2 _ h1, hsimp2 _ h2, hsimp2 _ h3, hsimp2 _ h4, hsimp2 _ h5, hsimp2 _ h6,
          hsimp2 _ h7, hsimp2 _ h8, emit, bind_apply, M.bind, Event.inFetch, renders,
          Event.isRender]
      exact absurd (fun st => by cases st <;> assumption) hall
    rcases hrun : fetchPrerender w ch cp url s with ⟨v, st, t⟩
    obtain ⟨hs, ht, hr, hv⟩ := key _ hrun
    simp only at hs ht hr hv
    subst hs
    refine ⟨v, t, rfl, ht, hr, ?_⟩
    rcases hv with hv | hv
    · exact Or.inr ⟨hv, hex⟩
    · exact absurd hv hall

theorem parseUrl_store (lib : StdLib) (w : World) (host ch cp path : String) (s : List Row) :
    (parseUrl lib w host ch cp path s).store = s ∨
    ((∀ e, selectByUrl s (canonicalUrl host path) = some e → ¬ 0 < e.id) ∧
      (parseUrl lib w host ch cp path s).store =
        insertRow s (canonicalUrl host path) w.pageSource w.now) ∨
    (∃ e, selectByUrl s (canonicalUrl host path) = some e ∧ 0 < e.id ∧
      ((parseUrl lib w host ch cp path s).store = deleteById s e.id ∨
       (parseUrl lib w host ch cp path s).store =
        insertRow (deleteById s e.id) (canonicalUrl host path) w.pageSource w.now)) := by
  cases h1 : w.dbErr .sqlOpen
  swap
  · left
    simp [parseUrl, startDb, checkForExistingPrerender, checkError, emit,
      deferred, getStore, setStore, goPanic, bind_apply, M.bind, pure_apply, M.pure, h1]
  cases h2 : w.dbErr .createTable
  swap
  · left
    simp [parseUrl, startDb, checkForExistingPrerender, checkError, emit,
      deferred, getStore, setStore, goPanic, bind_apply, M.bind, pure_apply, M.pure, h1, h2]
  cases h3 : w.dbErr .query
  swap
  · left
    simp [parseUrl, startDb, checkForExistingPrerender, checkError, emit,
      deferred, getStore, setStore, goPanic, bind_apply, M.bind, pure_apply, M.pure, h1, h2, h3]
  cases h4 : w.dbErr .rowsErr
  swap
  · left
    cases hsel : selectByUrl s (canonicalUrl host path) <;> cases h5 : w.dbErr .scan <;>
    simp [parseUrl, startDb, checkForExistingPrerender, checkError, emit,
      deferred, getStore, setStore, goPanic, bind_apply, M.bind, pure_apply, M.pure, h1, h2, h3,
      h4, h5, hsel]
  cases hsel : selectByUrl s (canonicalUrl host path) with
  | none =>
    obtain ⟨v, t, hrun, -, -, hv⟩ := fetchPrerender_run w ch cp (canonicalUrl host path) s
    rcases hv with ⟨rfl, -⟩ | ⟨rfl, -⟩
    · cases h6 : w.dbErr .insert
      · right; left
        simp [parseUrl, startDb, checkForExistingPrerender, checkError, emit, deferred,
          getStore, setStore, goPanic, bind_apply, M.bind, pure_apply, M.pure, h1, h2, h3, h4,
          h6, hsel, hrun]
      · left
        simp [parseUrl, startDb, checkForExistingPrerender, checkError, emit, deferred,
          getStore, setStore, goPanic, bind_apply, M.bind, pure_apply, M.pure, h1, h2, h3, h4,
          h6, hsel, hrun]
    · left
      simp [parseUrl, startDb, checkForExistingPrerender, checkError, emit, deferred,
        getStore, setStore, goPanic, bind_apply, M.bind, pure_apply, M.pure, h1, h2, h3, h4,
        hsel, hrun]
  | some e =>
    cases h5 : w.dbErr .scan
    swap
    · left
      simp [parseUrl, startDb, checkForExistingPrerender, checkError, emit, deferred,
        getStore, setStore, goPanic, bind_apply, M.bind, pure_apply, M.pure, h1, h2, h3, h4,
        h5, hsel]
    by_cases hpos : 0 < e.id
    · cases hp : w.probe with
      | failed =>
        left
        simp [parseUrl, startDb, checkForExistingPrerender, checkError, emit, deferred,
          getStore, setStore, goPanic, bind_apply, M.bind, pure_apply, M.pure, h1, h2, h3, h4,
          h5, hsel, hpos, hp]
      | response lm =>
        cases lm with
        | none =>
          left
          simp [parseUrl, startDb, checkForExistingPrerender, checkError, emit, deferred,
            getStore, setStore, goPanic, bind_apply, M.bind, pure_apply, M.pure, h1, h2, h3,
            h4, h5, hsel, hpos, hp]
        | some hdr =>
          by_cases hstale : lastModifiedStamp lib hdr > e.updated
          · cases h7 : w.dbErr .delete
            swap
            · left
              simp [parseUrl, startDb, checkForExistingPrerender, checkError, emit, deferred,
                getStore, setStore, goPanic, bind_apply, M.bind, pure_apply, M.pure, h1, h2,
                h3, h4, h5, h7, hsel, hpos, hp, hstale]
            right; right
            refine ⟨e, rfl, hpos, ?_⟩
            obtain ⟨v, t, hrun, -, -, hv⟩ :=
              fetchPrerender_run w ch cp (canonicalUrl host path) (deleteById s e.id)
            rcases hv with ⟨rfl, -⟩ | ⟨rfl, -⟩
            · cases h6 : w.dbErr .insert
              · right
                simp [parseUrl, startDb, checkForExistingPrerender, checkError, emit, deferred,
                  getStore, setStore, goPanic, bind_apply, M.bind, pure_apply, M.pure, h1, h2,
                  h3, h4, h5, h6, h7, hsel, hpos, hp, hstale, hrun]
              · left
                simp [parseUrl, startDb, checkForExistingPrerender, checkError, emit, deferred,
                  getStore, setStore, goPanic, bind_apply, M.bind, pure_apply, M.pure, h1, h2,
                  h3, h4, h5, h6, h7, hsel, hpos, hp, hstale, hrun]
            · left
              simp [parseUrl, startDb, checkForExistingPrerender, checkError, emit, deferred,
                getStore, setStore, goPanic, bind_apply, M.bind, pure_apply, M.pure, h1, h2,
                h3, h4, h5, h7, hsel, hpos, hp, hstale, hrun]
          · left
            simp [parseUrl, startDb, checkForExistingPrerender, checkError, emit, deferred,
              getStore, setStore, goPanic, bind_apply, M.bind, pure_apply, M.pure, h1, h2,
              h3, h4, h5, hsel, hpos, hp, hstale]
    · obtain ⟨v, t, hrun, -, -, hv⟩ := fetchPrerender_run w ch cp (canonicalUrl host path) s
      rcases hv with ⟨rfl, -⟩ | ⟨rfl, -⟩
      · cases h6 : w.dbErr .insert
        · right; left
          simp [parseUrl, startDb, checkForExistingPrerender, checkError, emit, deferred,
            getStore, setStore, goPanic, bind_apply, M.bind, pure_apply, M.pure, h1, h2, h3,
            h4, h5, h6, hsel, hpos, hrun]
          exact not_lt.mp hpos
        · left
          simp [parseUrl, startDb, checkForExistingPrerender, checkError, emit, deferred,
            getStore, setStore, goPanic, bind_apply, M.bind, pure_apply, M.pure, h1, h2, h3,
            h4, h5, h6, hsel, hpos, hrun]
      · left
        simp [parseUrl, startDb, checkForExistingPrerender, checkError, emit, deferred,
          getStore, setStore, goPanic, bind_apply, M.bind, pure_apply, M.pure, h1, h2, h3, h4,
          h5, hsel, hpos, hrun]

theorem deleteById_urls_sublist (s : List Row) (id : Int) :
    ((deleteById s id).map Row.url).Sublist (s.map Row.url) :=
  (List.filter_sublist s).map Row.url

theorem not_mem_urls_of_select_none {s : List Row} {u : String}
    (h : selectByUrl s u = none) : u ∉ s.map Row.url := by
  intro hu
  obtain ⟨r, hr, hru⟩ := List.mem_map.1 hu
  exact (selectByUrl_eq_none_iff s u).1 h r hr hru

theorem insertRow_urls_nodup {s : List Row} {u h : String} {now : Int}
    (hs : (s.map Row.url).Nodup) (hu : u ∉ s.map Row.url) :
    ((insertRow s u h now).map Row.url).Nodup := by
  simp only [insertRow, List.map_append, List.map_cons, List.map_nil]
  refine List.Nodup.append hs (List.nodup_singleton u) ?_
  intro x hx hx2
  simp only [List.mem_singleton] at hx2
  subst hx2
  exact hu hx

theorem not_mem_urls_deleteById {s : List Row} {e : Row}
    (hs : (s.map Row.url).Nodup) (he : e ∈ s) :
    e.url ∉ (deleteById s e.id).map Row.url := by
  intro hu
  obtain ⟨r, hr, hru⟩ := List.mem_map.1 hu
  simp only [deleteById, List.mem_filter, bne_iff_ne, ne_eq] at hr
  have : r = e := List.inj_on_of_nodup_map hs hr.1 he hru
  exact hr.2 (by rw [this])

theorem deleteById_eq_self {s : List Row} {id : Int} (h : id ∉ s.map Row.id) :
    deleteById s id = s := by
  simp only [deleteById, List.filter_eq_self, bne_iff_ne, ne_eq]
  intro r hr hid
  exact h (List.mem_map.2 ⟨r, hr, hid⟩)

theorem deleteById_eq_erase {s : List Row} {e : Row}
    (hpk : (s.map Row.id).Nodup) (he : e ∈ s) : deleteById s e.id = s.erase e := by
  induction s with
  | nil => cases he
  | cons x xs ih =>
    simp only [List.map_cons, List.nodup_cons] at hpk
    by_cases hx : x = e
    · subst hx
      have := deleteById_eq_self hpk.1
      simp only [deleteById] at this ⊢
      simp [List.filter_cons, this]
    · have hexs : e ∈ xs := by
        rcases List.mem_cons.1 he with h | h
        · exact absurd h.symm hx
        · exact h
      have hid : x.id ≠ e.id := by
        intro h
        exact hpk.1 (h ▸ List.mem_map.2 ⟨e, hexs, rfl⟩)
      have ih2 := ih hpk.2 hexs
      simp only [deleteById] at ih2 ⊢
      rw [List.erase_cons_tail (by simpa using hx)]
      simp [List.filter_cons, hid, ih2]

theorem rowsFor_deleteById {s : List Row} {e : Row}
    (hpk : (s.map Row.id).Nodup) (he : e ∈ s) :
    rowsFor (deleteById s e.id) e.url + 1 = rowsFor s e.url := by
  rw [deleteById_eq_erase hpk he]
  induction s with
  | nil => cases he
  | cons x xs ih =>
    simp only [List.map_cons, List.nodup_cons] at hpk
    by_cases hx : x = e
    · subst hx
      simp [rowsFor, List.countP_cons]
    · have hexs : e ∈ xs := by
        rcases List.mem_cons.1 he with h | h
        · exact absurd h.symm hx
        · exact h
      have ih2 := ih hpk.2 hexs
      rw [List.erase_cons_tail (by simpa using hx)]
      simp only [rowsFor, List.countP_cons] at ih2 ⊢
      omega

theorem not_mem_deleteById (s : List Row) (e : Row) : e ∉ deleteById s e.id := by
  simp [deleteById]

theorem parseUrl_miss_ok (lib : StdLib) (w : World) (host ch cp path : String) (s : List Row)
    (hsel : selectByUrl s (canonicalUrl host path) = none)
    (hdb : w.dbOk) (hok : ∀ st, w.browserErr st = false) :
    parseUrl lib w host ch cp path s =
      ⟨some w.pageSource, insertRow s (canonicalUrl host path) w.pageSource w.now,
       lookupTrace host path ++ renderTrace ch cp (canonicalUrl host path) ++
         [.insert (canonicalUrl host path) w.pageSource, .dbClose]⟩ := by
  have hdb2 : ∀ op, w.dbErr op = false := hdb
  simp [parseUrl, startDb, checkForExistingPrerender, fetchPrerender_ok, checkError, emit,
    deferred, getStore, setStore, goPanic, bind_apply, M.bind, pure_apply, M.pure, hdb2, hok,
    hsel, lookupTrace]

theorem parseUrl_fresh (lib : StdLib) (w : World) (host ch cp path : String) (s : List Row)
    (e : Row) (hdr : String)
    (hsel : selectByUrl s (canonicalUrl host path) = some e) (hpos : 0 < e.id)
    (hdb : w.dbOk) (hprobe : w.probe = .response (some hdr))
    (hfresh : lastModifiedStamp lib hdr ≤ e.updated) :
    parseUrl lib w host ch cp path s =
      ⟨some e.html, s, lookupTrace host path ++ [.head (canonicalUrl host path), .dbClose]⟩ := by
  have hdb2 : ∀ op, w.dbErr op = false := hdb
  have hnot : ¬ lastModifiedStamp lib hdr > e.updated := not_lt.mpr hfresh
  simp [parseUrl, startDb, checkForExistingPrerender, checkError, emit,
    deferred, getStore, setStore, goPanic, bind_apply, M.bind, pure_apply, M.pure, hdb2, hsel,
    hpos, hprobe, hnot, lookupTrace]

theorem parseUrl_stale_ok (lib : StdLib) (w : World) (host ch cp path : String) (s : List Row)
    (e : Row) (hdr : String)
    (hsel : selectByUrl s (canonicalUrl host path) = some e) (hpos : 0 < e.id)
    (hdb : w.dbOk) (hprobe : w.probe = .response (some hdr))
    (hstale : e.updated < lastModifiedStamp lib hdr) (hok : ∀ st, w.browserErr st = false) :
    parseUrl lib w host ch cp path s =
      ⟨some w.pageSource,
       insertRow (deleteById s e.id) (canonicalUrl host path) w.pageSource w.now,
       lookupTrace host path ++ [.head (canonicalUrl host path), .delete e.id] ++
         renderTrace ch cp (canonicalUrl host path) ++
         [.insert (canonicalUrl host path) w.pageSource, .dbClose]⟩ := by
  have hdb2 : ∀ op, w.dbErr op = false := hdb
  have hgt : lastModifiedStamp lib hdr > e.updated := hstale
  simp [parseUrl, startDb, checkForExistingPrerender, fetchPrerender_ok, checkError, emit,
    deferred, getStore, setStore, goPanic, bind_apply, M.bind, pure_apply, M.pure, hdb2, hok,
    hsel, hpos, hprobe, hgt, lookupTrace]

theorem parseUrl_miss_render_fails (lib : StdLib) (w : World) (host ch cp path : String)
    (s : List Row)
    (hmiss : ∀ e, selectByUrl s (canonicalUrl host path) = some e → e.id ≤ 0)
    (hdb : w.dbOk) (hfail : ∃ st, w.browserErr st = true) :
    ∃ t, t.all Event.inFetch = true ∧ parseUrl lib w host ch cp path s =
      ⟨none, s, lookupTrace host path ++ t ++ [.dbClose]⟩ := by
  have hdb2 : ∀ op, w.dbErr op = false := hdb
  obtain ⟨v, t, hrun, ht, -, hv⟩ := fetchPrerender_run w ch cp (canonicalUrl host path) s
  rcases hv with ⟨-, hall⟩ | ⟨rfl, -⟩
  · obtain ⟨st, hst⟩ := hfail
    rw [hall st] at hst
    cases hst
  · refine ⟨t, ht, ?_⟩
    cases hsel : selectByUrl s (canonicalUrl host path) with
    | none =>
      simp [parseUrl, startDb, checkForExistingPrerender, checkError, emit, deferred, getStore,
        setStore, goPanic, bind_apply, M.bind, pure_apply, M.pure, hdb2, hsel, hrun, lookupTrace]
    | some e =>
      have hle : ¬ 0 < e.id := not_lt.mpr (hmiss e hsel)
      simp [parseUrl, startDb, checkForExistingPrerender, checkError, emit, deferred, getStore,
        setStore, goPanic, bind_apply, M.bind, pure_apply, M.pure, hdb2, hsel, hrun, lookupTrace,
        hle]

theorem parseUrl_stale_render_fails (lib : StdLib) (w : World) (host ch cp path : String)
    (s : List Row) (e : Row) (hdr : String)
    (hsel : selectByUrl s (canonicalUrl host path) = some e) (hpos : 0 < e.id)
    (hdb : w.dbOk) (hprobe : w.probe = .response (some hdr))
    (hstale : e.updated < lastModifiedStamp lib hdr) (hfail : ∃ st, w.browserErr st = true) :
    ∃ t, t.all Event.inFetch = true ∧ parseUrl lib w host ch cp path s =
      ⟨none, deleteById s e.id,
       lookupTrace host path ++ [.head (canonicalUrl host path), .delete e.id] ++ t ++
         [.dbClose]⟩ := by
  have hdb2 : ∀ op, w.dbErr op = false := hdb
  have hgt : lastModifiedStamp lib hdr > e.updated := hstale
  obtain ⟨v, t, hrun, ht, -, hv⟩ :=
    fetchPrerender_run w ch cp (canonicalUrl host path) (deleteById s e.id)
  rcases hv with ⟨-, hall⟩ | ⟨rfl, -⟩
  · obtain ⟨st, hst⟩ := hfail
    rw [hall st] at hst
    cases hst
  · refine ⟨t, ht, ?_⟩
    simp [parseUrl, startDb, checkForExistingPrerender, checkError, emit, deferred, getStore,
      setStore, goPanic, bind_apply, M.bind, pure_apply, M.pure, hdb2, hsel, hrun, lookupTrace,
      hpos, hprobe, hgt]

theorem all_inFetch_not_insert {t : List Event} (h : t.all Event.inFetch = true) :
    t.all (fun ev => !ev.isInsert) = true := by
  simp only [List.all_eq_true] at h ⊢
  intro ev hev
  have := h ev hev
  cases ev <;> simp_all [Event.inFetch, Event.isInsert]

theorem maxRowid_mem {s : List Row} {m : Int} (h : maxRowid s = some m) :
    ∃ r ∈ s, r.id = m := by
  induction s generalizing m with
  | nil => simp [maxRowid] at h
  | cons x xs ih =>
    simp only [maxRowid] at h
    cases hxs : maxRowid xs with
    | none =>
      rw [hxs] at h
      simp only [Option.some.injEq] at h
      exact ⟨x, by simp, h⟩
    | some k =>
      rw [hxs] at h
      simp only [Option.some.injEq] at h
      obtain ⟨r, hr, hrk⟩ := ih hxs
      rcases max_choice x.id k with hc | hc
      · exact ⟨x, by simp, by rw [← h, hc]⟩
      · exact ⟨r, by simp [hr], by rw [← h, hc, hrk]⟩

theorem nextRowid_pos {s : List Row} (hpos : ∀ r ∈ s, 0 < r.id) : 0 < nextRowid s := by
  unfold nextRowid
  cases h : maxRowid s with
  | none => simp
  | some m =>
    obtain ⟨r, hr, hrm⟩ := maxRowid_mem h
    have := hpos r hr
    simp only
    omega

theorem selectByUrl_append_new {s : List Row} {n : Row}
    (hs : ∀ r ∈ s, r.url ≠ n.url) : selectByUrl (s ++ [n]) n.url = some n := by
  have hf : s.filter (fun r => r.url == n.url) = [] := by
    simp only [List.filter_eq_nil_iff, beq_iff_eq]
    exact hs
  simp [selectByUrl, List.filter_append, hf, List.filter_cons]

/-! ## Lemmas on the host gate and the search -/

theorem emit_bind_trace {α : Type} (e : Event) (k : Unit → M α) (s : List Row) :
    ∃ t, ((emit e >>= k) s).trace = e :: t := by
  simp only [bind_apply, M.bind, emit]
  generalize k () s = x
  rcases x with ⟨v, st, t⟩
  exact ⟨t, rfl⟩

theorem parseUrl_trace_head (lib : StdLib) (w : World) (host ch cp path : String)
    (s : List Row) :
    ∃ t, (parseUrl lib w host ch cp path s).trace = .parseUrl host path :: t := by
  unfold parseUrl
  exact emit_bind_trace _ _ s

theorem handlerAccepts_eq_found (lib : StdLib) (w : World) (env : Environ) (r : Request)
    (s : List Row) (p : String) (re : Regex)
    (hform : r.formErr = false) (hp : env.allowedHosts = some p)
    (hre : lib.regexpCompile p = some re) :
    handlerAccepts lib w env r s = re.found r.host := by
  cases hfound : re.found r.host with
  | false =>
    simp [handlerAccepts, handler, checkError, emit, bind_apply, M.bind, pure_apply, M.pure,
      hform, hp, hre, hfound]
  | true =>
    obtain ⟨t, ht⟩ := parseUrl_trace_head lib w r.host (env.chromeHost.getD "localhost")
      (env.chromePort.getD "9222") r.path s
    rcases hrun : parseUrl lib w r.host (env.chromeHost.getD "localhost")
      (env.chromePort.getD "9222") r.path s with ⟨v, st, tr⟩
    rw [hrun] at ht
    simp only at ht
    subst ht
    cases v <;>
    simp [handlerAccepts, handler, checkError, emit, bind_apply, M.bind, pure_apply, M.pure,
      hform, hp, hre, hfound, hrun]

theorem lastOr_cons (prev : Option Char) (c : Char) (pre : List Char) :
    lastOr prev (c :: pre) = lastOr (some c) pre := by
  cases pre with
  | nil => rfl
  | cons d ds =>
    simp only [lastOr, List.getLast?_cons_cons]
    cases h : (d :: ds).getLast? with
    | none => simp at h
    | some x => rfl

theorem matchesHere_iff (re : Regex) (prev : Option Char) (w : List Char) :
    re.matchesHere prev w = true ↔
      ∃ mid post, w = mid ++ post ∧ re.matchesIn prev mid post.head? = true := by
  induction w generalizing re prev with
  | nil =>
    simp only [Regex.matchesHere]
    constructor
    · intro h
      exact ⟨[], [], rfl, by simpa [Regex.matchesIn] using h⟩
    · rintro ⟨mid, post, hw, h⟩
      have hm : mid = [] := by
        cases mid with
        | nil => rfl
        | cons a as => cases hw
      have hp : post = [] := by
        subst hm; simpa using hw.symm
      subst hm; subst hp
      simpa [Regex.matchesIn] using h
  | cons c cs ih =>
    simp only [Regex.matchesHere, Bool.or_eq_true]
    constructor
    · rintro (h | h)
      · exact ⟨[], c :: cs, rfl, by simpa [Regex.matchesIn] using h⟩
      · obtain ⟨mid, post, hw, hm⟩ := (ih _ _).1 h
        exact ⟨c :: mid, post, by simp [hw], by simpa [Regex.matchesIn] using hm⟩
    · rintro ⟨mid, post, hw, h⟩
      cases mid with
      | nil =>
        simp only [List.nil_append] at hw
        subst hw
        left
        simpa [Regex.matchesIn] using h
      | cons a as =>
        simp only [List.cons_append, List.cons.injEq] at hw
        obtain ⟨rfl, hcs⟩ := hw
        right
        exact (ih _ _).2 ⟨as, post, hcs, by simpa [Regex.matchesIn] using h⟩

theorem searchFrom_iff (re : Regex) (prev : Option Char) (w : List Char) :
    re.searchFrom prev w = true ↔
      ∃ pre mid post, w = pre ++ mid ++ post ∧
        re.matchesIn (lastOr prev pre) mid post.head? = true := by
  induction w generalizing prev with
  | nil =>
    simp only [Regex.searchFrom, matchesHere_iff]
    constructor
    · rintro ⟨mid, post, hw, h⟩
      exact ⟨[], mid, post, by simpa using hw, by simpa [lastOr] using h⟩
    · rintro ⟨pre, mid, post, hw, h⟩
      have hpre : pre = [] := by
        cases pre with
        | nil => rfl
        | cons a as => cases hw
      subst hpre
      exact ⟨mid, post, by simpa using hw, by simpa [lastOr] using h⟩
  | cons c cs ih =>
    simp only [Regex.searchFrom, Bool.or_eq_true, matchesHere_iff]
    constructor
    · rintro (⟨mid, post, hw, h⟩ | h)
      · exact ⟨[], mid, post, by simpa using hw, by simpa [lastOr] using h⟩
      · obtain ⟨pre, mid, post, hw, hm⟩ := (ih _).1 h
        exact ⟨c :: pre, mid, post, by simp [hw], by rw [lastOr_cons]; exact hm⟩
    · rintro ⟨pre, mid, post, hw, h⟩
      cases pre with
      | nil =>
        left
        exact ⟨mid, post, by simpa using hw, by simpa [lastOr] using h⟩
      | cons a as =>
        simp only [List.cons_append, List.cons.injEq] at hw
        obtain ⟨rfl, hcs⟩ := hw
        right
        rw [lastOr_cons] at h
        exact (ih _).2 ⟨as, mid, post, hcs, h⟩

theorem found_iff (re : Regex) (host : String) :
    re.found host = true ↔
      ∃ pre mid post, host.toList = pre ++ mid ++ post ∧
        re.matchesIn pre.getLast? mid post.head? = true := by
  unfold Regex.found
  rw [searchFrom_iff]
  constructor
  · rintro ⟨pre, mid, post, hw, h⟩
    refine ⟨pre, mid, post, hw, ?_⟩
    cases hl : pre.getLast? <;> simpa [lastOr, hl] using h
  · rintro ⟨pre, mid, post, hw, h⟩
    refine ⟨pre, mid, post, hw, ?_⟩
    cases hl : pre.getLast? <;> simpa [lastOr, hl] using h

theorem nullable_anchorFree {re : Regex} (h : re.anchorFree = true) (p n p2 n2 : Option Char) :
    re.nullable p n = re.nullable p2 n2 := by
  induction re with
  | capture r ih => simpa [Regex.nullable] using ih (by simpa [Regex.anchorFree] using h)
  | plus r ih => simpa [Regex.nullable] using ih (by simpa [Regex.anchorFree] using h)
  | concat r s ihr ihs =>
    simp only [Regex.anchorFree, Bool.and_eq_true] at h
    simp [Regex.nullable, ihr h.1, ihs h.2]
  | alternate r s ihr ihs =>
    simp only [Regex.anchorFree, Bool.and_eq_true] at h
    simp [Regex.nullable, ihr h.1, ihs h.2]
  | _ => first | rfl | simp [Regex.anchorFree] at h

theorem deriv_anchorFree {re : Regex} (h : re.anchorFree = true) (p p2 : Option Char)
    (c : Char) : re.deriv p c = re.deriv p2 c ∧ (re.deriv p c).anchorFree = true := by
  induction re with
  | literal a => by_cases hac : a = c <;> simp [Regex.deriv, Regex.anchorFree, hac]
  | charClass ranges => simp only [Regex.deriv]; split <;> simp [Regex.anchorFree]
  | anyCharNotNL => simp only [Regex.deriv]; split <;> simp [Regex.anchorFree]
  | capture r ih => simpa [Regex.deriv] using ih (by simpa [Regex.anchorFree] using h)
  | quest r ih => simpa [Regex.deriv] using ih (by simpa [Regex.anchorFree] using h)
  | star r ih =>
    have hr : r.anchorFree = true := by simpa [Regex.anchorFree] using h
    obtain ⟨h1, h2⟩ := ih hr
    refine ⟨by simp only [Regex.deriv, h1], ?_⟩
    simp only [Regex.deriv, Regex.anchorFree, h2, hr, Bool.and_self]
  | plus r ih =>
    have hr : r.anchorFree = true := by simpa [Regex.anchorFree] using h
    obtain ⟨h1, h2⟩ := ih hr
    refine ⟨by simp only [Regex.deriv, h1], ?_⟩
    simp only [Regex.deriv, Regex.anchorFree, h2, hr, Bool.and_self]
  | concat r s ihr ihs =>
    simp only [Regex.anchorFree, Bool.and_eq_true] at h
    obtain ⟨h1, h2⟩ := ihr h.1
    obtain ⟨h3, h4⟩ := ihs h.2
    have hn := nullable_anchorFree h.1 p (some c) p2 (some c)
    refine ⟨by simp only [Regex.deriv, hn, h1, h3], ?_⟩
    simp only [Regex.deriv]
    split
    · simp only [Regex.anchorFree, h2, h.2, h4, Bool.and_self]
    · simp only [Regex.anchorFree, h2, h.2, Bool.and_self]
  | alternate r s ihr ihs =>
    simp only [Regex.anchorFree, Bool.and_eq_true] at h
    obtain ⟨h1, h2⟩ := ihr h.1
    obtain ⟨h3, h4⟩ := ihs h.2
    refine ⟨by simp only [Regex.deriv, h1, h3], ?_⟩
    simp only [Regex.deriv, Regex.anchorFree, h2, h4, Bool.and_self]
  | _ => simp [Regex.deriv, Regex.anchorFree]

theorem matchesIn_anchorFree {re : Regex} (h : re.anchorFree = true) (p p2 : Option Char)
    (mid : List Char) (n n2 : Option Char) :
    re.matchesIn p mid n = re.matchesIn p2 mid n2 := by
  induction mid generalizing re p p2 with
  | nil => simpa [Regex.matchesIn] using nullable_anchorFree h p n p2 n2
  | cons c cs ih =>
    simp only [Regex.matchesIn]
    rw [(deriv_anchorFree h p p2 c).1]
    exact ih (deriv_anchorFree h p2 p2 c).2 (some c) (some c)

theorem found_mono {re : Regex} (h : re.anchorFree = true) (a host b : String)
    (hf : re.found host = true) : re.found (a ++ host ++ b) = true := by
  obtain ⟨pre, mid, post, hw, hm⟩ := (found_iff re host).1 hf
  refine (found_iff re _).2 ⟨a.toList ++ pre, mid, post ++ b.toList, ?_, ?_⟩
  · simp [String.toList, hw] at hw ⊢
    simp [hw]
  · rw [matchesIn_anchorFree h _ pre.getLast? mid _ post.head?]
    exact hm

theorem found_emptyMatch (host : String) : Regex.emptyMatch.found host = true := by
  unfold Regex.found
  cases host.toList <;> simp [Regex.searchFrom, Regex.matchesHere, Regex.nullable]

/-! ## C1: the host gate rejects -/

/-- C1 fails on the code: with `ALLOWED_HOSTS` set to the invalid pattern `(`,
`regexp.Compile` returns an error that `handler` discards, and the call on the
nil `regex` panics: for every request, answer of the outside and table,
`handler` ends in a panic without any action, so no 400 response is written. -/
theorem C1_invalid_pattern_panics (w : World) (r : Request) (s : List Row) :
    compileFragment "(" = none ∧
    handler sampleLib w ⟨some "(", none, none⟩ r s = ⟨none, s, []⟩ ∧
    Event.httpError 400 ∉ (handler sampleLib w ⟨some "(", none, none⟩ r s).trace := by
  have hc : compileFragment "(" = none := by decide
  have hrun : handler sampleLib w ⟨some "(", none, none⟩ r s = ⟨none, s, []⟩ := by
    cases hf : r.formErr <;>
    simp [handler, checkError, goPanic, bind_apply, M.bind, pure_apply, M.pure, hf, sampleLib, hc]
  exact ⟨hc, hrun, by rw [hrun]; simp⟩

/-- The part of C1 that holds: with no allow-pattern configured, or with an
allow-pattern that compiles and is not found in the host, a request whose form
parses is answered with status 400 and nothing else happens. -/
theorem handler_rejects (lib : StdLib) (w : World) (env : Environ) (r : Request) (s : List Row)
    (hform : r.formErr = false)
    (hgate : env.allowedHosts = none ∨
      ∃ p re, env.allowedHosts = some p ∧ lib.regexpCompile p = some re ∧
        re.found r.host = false) :
    handler lib w env r s = ⟨some (), s, [.httpError 400]⟩ := by
  rcases hgate with h | ⟨p, re, hp, hre, hfound⟩
  · simp [handler, checkError, emit, bind_apply, M.bind, pure_apply, M.pure, hform, h]
  · simp [handler, checkError, emit, bind_apply, M.bind, pure_apply, M.pure, hform, hp, hre,
      hfound]

/-! ## C2 to C7: the cache orchestrator -/

/-- C2: a miss followed by a successful render stores exactly one new row.
For every host, path and table with no row whose url is
`"https://" ++ host ++ path`, if the SQLite calls succeed and the render fetch
succeeds with output `h`, then `parseUrl` returns `h`, issues no HEAD probe and
no delete, renders once, looks up and inserts under the key
`"https://" ++ host ++ path`, and leaves the table as before plus one row at
the end, whose url is `"https://" ++ host ++ path`, whose html is `h` and whose
`updated` is the clock at the insert, which is not before the beginning of the
request. -/
theorem C2_miss_then_render_inserts_one_row (lib : StdLib) (w : World)
    (host chromeHost chromePort path : String) (s : List Row) (h : String)
    (hmiss : ∀ r ∈ s, r.url ≠ "https://" ++ host ++ path)
    (hdb : w.dbOk) (hrender : w.renderSucceeds h) :
    (parseUrl lib w host chromeHost chromePort path s).value = some h ∧
    (parseUrl lib w host chromeHost chromePort path s).trace.all
      (fun ev => !ev.isHead && !ev.isDelete) = true ∧
    renders (parseUrl lib w host chromeHost chromePort path s).trace = 1 ∧
    (parseUrl lib w host chromeHost chromePort path s).trace =
      [.parseUrl host path, .sqlOpen, .createTable, .query ("https://" ++ host ++ path),
       .rowsClose] ++
      renderTrace chromeHost chromePort ("https://" ++ host ++ path) ++
      [.insert ("https://" ++ host ++ path) h, .dbClose] ∧
    (parseUrl lib w host chromeHost chromePort path s).store =
      s ++ [⟨nextRowid s, "https://" ++ host ++ path, w.began + w.elapsed, h⟩] ∧
    w.began ≤ w.began + w.elapsed := by
  have hkey : canonicalUrl host path = "https://" ++ host ++ path := rfl
  have hsel := (selectByUrl_eq_none_iff s (canonicalUrl host path)).2 (by rw [hkey]; exact hmiss)
  obtain ⟨hok, rfl⟩ := hrender
  rw [parseUrl_miss_ok lib w host chromeHost chromePort path s hsel hdb hok, hkey]
  simp [lookupTrace, hkey, renderTrace, renders, Event.isRender, Event.isHead, Event.isDelete,
    insertRow, World.now]

/-- C2 at a concrete input: the table holds one row for another page of the
same host; the request for `/page` misses, renders, and appends the row with
id 2, url `https://example.com/page`, stored at second 301. -/
theorem C2_witness :
    (∀ r ∈ [(⟨1, "https://example.com/other", 100, "<html>O</html>"⟩ : Row)],
      r.url ≠ "https://" ++ "example.com" ++ "/page") ∧
    sampleWorld.dbOk ∧ sampleWorld.renderSucceeds "<html>A</html>" ∧
    (parseUrl sampleLib sampleWorld "example.com" "localhost" "9222" "/page"
      [⟨1, "https://example.com/other", 100, "<html>O</html>"⟩]).value =
      some "<html>A</html>" ∧
    (parseUrl sampleLib sampleWorld "example.com" "localhost" "9222" "/page"
      [⟨1, "https://example.com/other", 100, "<html>O</html>"⟩]).store =
      [⟨1, "https://example.com/other", 100, "<html>O</html>"⟩,
       ⟨2, "https://example.com/page", 301, "<html>A</html>"⟩] :=
  have key := C2_miss_then_render_inserts_one_row sampleLib sampleWorld "example.com"
    "localhost" "9222" "/page" [⟨1, "https://example.com/other", 100, "<html>O</html>"⟩]
    "<html>A</html>" (by decide) (fun _ => rfl) ⟨fun _ => rfl, rfl⟩
  ⟨by decide, fun _ => rfl, ⟨fun _ => rfl, rfl⟩, key.1, key.2.2.2.2.1.trans (by decide)⟩

/-- C3: a fresh hit is served from the table. If the lookup for the canonical
URL selects the entry `e` (with the positive id SQLite assigned), the SQLite
calls succeed, and the probe returns a Last-Modified header whose Unix time is
at most `e.updated` (equality included), then `parseUrl` returns `e.html`,
never enters `fetchPrerender`, issues no delete and no insert, and leaves
the table as it was. -/
theorem C3_fresh_hit_serves_cached_html (lib : StdLib) (w : World)
    (host chromeHost chromePort path : String) (s : List Row) (e : Row) (hdr : String)
    (hsel : selectByUrl s (canonicalUrl host path) = some e) (hpos : 0 < e.id)
    (hdb : w.dbOk) (hprobe : w.probe = .response (some hdr))
    (hfresh : lastModifiedStamp lib hdr ≤ e.updated) :
    (parseUrl lib w host chromeHost chromePort path s).value = some e.html ∧
    renders (parseUrl lib w host chromeHost chromePort path s).trace = 0 ∧
    (parseUrl lib w host chromeHost chromePort path s).trace.all
      (fun ev => !ev.isDelete && !ev.isInsert) = true ∧
    (parseUrl lib w host chromeHost chromePort path s).store = s := by
  rw [parseUrl_fresh lib w host chromeHost chromePort path s e hdr hsel hpos hdb hprobe hfresh]
  simp [lookupTrace, renders, Event.isRender, Event.isDelete, Event.isInsert]

theorem C3_witness :
    selectByUrl [⟨1, "https://example.com/page", 200, "<html>A</html>"⟩]
      (canonicalUrl "example.com" "/page") =
      some ⟨1, "https://example.com/page", 200, "<html>A</html>"⟩ ∧
    lastModifiedStamp sampleLib "Thu, 01 Jan 1970 00:03:20 GMT" ≤ 200 ∧
    (parseUrl sampleLib sampleWorld "example.com" "localhost" "9222" "/page"
      [⟨1, "https://example.com/page", 200, "<html>A</html>"⟩]).value =
      some "<html>A</html>" :=
  ⟨by decide, by decide,
   (C3_fresh_hit_serves_cached_html sampleLib sampleWorld "example.com" "localhost" "9222"
      "/page" [⟨1, "https://example.com/page", 200, "<html>A</html>"⟩]
      ⟨1, "https://example.com/page", 200, "<html>A</html>"⟩
      "Thu, 01 Jan 1970 00:03:20 GMT" (by decide) (by decide) (fun _ => rfl) rfl
      (by decide)).1⟩

/-- C4, as stated, fails: the table holds the single entry `e` with id 1,
stored at second 100 with html A; the origin reports second 200, so `e` is
stale; the render returns A again and the clock still shows 100. The delete
empties the table, the insert is given the rowid 1 again, and the row `e` is in
the table afterwards. -/
theorem C4_counterexample :
    selectByUrl [⟨1, "https://example.com/page", 100, "<html>A</html>"⟩]
      (canonicalUrl "example.com" "/page") =
      some ⟨1, "https://example.com/page", 100, "<html>A</html>"⟩ ∧
    (100 : Int) < lastModifiedStamp sampleLib "Thu, 01 Jan 1970 00:03:20 GMT" ∧
    skewedWorld.probe = .response (some "Thu, 01 Jan 1970 00:03:20 GMT") ∧
    skewedWorld.dbOk ∧ skewedWorld.renderSucceeds "<html>A</html>" ∧
    (⟨1, "https://example.com/page", 100, "<html>A</html>"⟩ : Row) ∈
      (parseUrl sampleLib skewedWorld "example.com" "localhost" "9222" "/page"
        [⟨1, "https://example.com/page", 100, "<html>A</html>"⟩]).store :=
  ⟨by decide, by decide, rfl, fun _ => rfl, ⟨fun _ => rfl, rfl⟩, by decide⟩

/-- C4 (amended): a stale hit is replaced. If the lookup selects the entry `e`
(positive id), ids are a primary key, the SQLite calls succeed, the probe
returns a Last-Modified header whose Unix time is strictly greater than
`e.updated`, and the render fetch succeeds with output `h`, then `parseUrl`
returns `h`; its actions are, in this order, the lookup, the HEAD probe, the
delete of id `e.id`, one render fetch, one insert, the close; the table
afterwards is the table before without `e`, followed by the new row
`(url, h, now)`; no row kept from before is `e`; the number of rows for the URL
is unchanged; and `e` is absent from the table unless the new row equals it. -/
theorem C4_stale_hit_replaces_entry (lib : StdLib) (w : World)
    (host chromeHost chromePort path : String) (s : List Row) (e : Row) (hdr h : String)
    (hsel : selectByUrl s (canonicalUrl host path) = some e) (hpos : 0 < e.id)
    (hpk : (s.map Row.id).Nodup)
    (hdb : w.dbOk) (hprobe : w.probe = .response (some hdr))
    (hstale : e.updated < lastModifiedStamp lib hdr) (hrender : w.renderSucceeds h) :
    (parseUrl lib w host chromeHost chromePort path s).value = some h ∧
    (parseUrl lib w host chromeHost chromePort path s).trace =
      lookupTrace host path ++ [.head (canonicalUrl host path), .delete e.id] ++
        renderTrace chromeHost chromePort (canonicalUrl host path) ++
        [.insert (canonicalUrl host path) h, .dbClose] ∧
    renders (parseUrl lib w host chromeHost chromePort path s).trace = 1 ∧
    (parseUrl lib w host chromeHost chromePort path s).store =
      s.erase e ++ [⟨nextRowid (s.erase e), canonicalUrl host path, w.now, h⟩] ∧
    e ∉ s.erase e ∧
    rowsFor (parseUrl lib w host chromeHost chromePort path s).store (canonicalUrl host path) =
      rowsFor s (canonicalUrl host path) ∧
    ((⟨nextRowid (s.erase e), canonicalUrl host path, w.now, h⟩ : Row) ≠ e →
      e ∉ (parseUrl lib w host chromeHost chromePort path s).store) := by
  obtain ⟨hok, rfl⟩ := hrender
  obtain ⟨hmem, hurl⟩ := selectByUrl_some hsel
  have herase : e ∉ s.erase e := by
    rw [← deleteById_eq_erase hpk hmem]
    exact not_mem_deleteById s e
  have hcount := rowsFor_deleteById hpk hmem
  rw [hurl, deleteById_eq_erase hpk hmem] at hcount
  rw [parseUrl_stale_ok lib w host chromeHost chromePort path s e hdr hsel hpos hdb hprobe
    hstale hok, deleteById_eq_erase hpk hmem]
  refine ⟨rfl, rfl, ?_, rfl, herase, ?_, ?_⟩
  · simp [lookupTrace, renderTrace, renders, Event.isRender]
  · simp only [insertRow, rowsFor, List.countP_append] at hcount ⊢
    simp only [List.countP_cons, List.countP_nil, beq_self_eq_true, if_true]
    omega
  · intro hne hin
    simp only [insertRow, List.mem_append, List.mem_singleton] at hin
    rcases hin with hin | hin
    · exact herase hin
    · exact hne hin.symm

theorem C4_witness :
    selectByUrl [⟨1, "https://example.com/page", 100, "<html>old</html>"⟩]
      (canonicalUrl "example.com" "/page") =
      some ⟨1, "https://example.com/page", 100, "<html>old</html>"⟩ ∧
    (100 : Int) < lastModifiedStamp sampleLib "Thu, 01 Jan 1970 00:03:20 GMT" ∧
    (parseUrl sampleLib sampleWorld "example.com" "localhost" "9222" "/page"
      [⟨1, "https://example.com/page", 100, "<html>old</html>"⟩]).value =
      some "<html>A</html>" ∧
    (⟨1, "https://example.com/page", 100, "<html>old</html>"⟩ : Row) ∉
      (parseUrl sampleLib sampleWorld "example.com" "localhost" "9222" "/page"
        [⟨1, "https://example.com/page", 100, "<html>old</html>"⟩]).store :=
  have key := C4_stale_hit_replaces_entry sampleLib sampleWorld "example.com" "localhost"
    "9222" "/page" [⟨1, "https://example.com/page", 100, "<html>old</html>"⟩]
    ⟨1, "https://example.com/page", 100, "<html>old</html>"⟩
    "Thu, 01 Jan 1970 00:03:20 GMT" "<html>A</html>" (by decide) (by decide) (by decide)
    (fun _ => rfl) rfl (by decide) ⟨fun _ => rfl, rfl⟩
  ⟨by decide, by decide, key.1, key.2.2.2.2.2.2 (by decide)⟩

/-- C5, as stated, fails: on an empty table the first call renders and stores
the page at second 100; the origin reports, for both calls, a modification
time of second 200; the second call, in the same second, finds the stored row,
judges it stale and renders again. -/
theorem C5_counterexample :
    (requestTwice sampleLib skewedWorld skewedWorld "example.com" "localhost" "9222" "/page"
      []).1.value = some "<html>A</html>" ∧
    renders (requestTwice sampleLib skewedWorld skewedWorld "example.com" "localhost" "9222"
      "/page" []).1.trace = 1 ∧
    renders (requestTwice sampleLib skewedWorld skewedWorld "example.com" "localhost" "9222"
      "/page" []).2.trace = 1 := by
  decide

/-- C5 (amended): idempotence when the origin is not ahead of the cache. Let
the table have positive ids and at most one row per url, let the SQLite calls
of both requests succeed, let the origin answer both probes with the same
Last-Modified header, let the first call find no entry or a stale one and its
render fetch succeed with output `h`, and let the Last-Modified time be at most
the clock at which the first call stores its row. Then both calls return `h`,
the first call renders exactly once and the second not at all, the lookup of
the second call selects the row the first call inserted, and the second call
leaves the table as the first call left it. -/
theorem C5_repeated_request_renders_once (lib : StdLib) (w1 w2 : World)
    (host chromeHost chromePort path : String) (s : List Row) (hdr h : String)
    (hpos : ∀ r ∈ s, 0 < r.id) (huniq : (s.map Row.url).Nodup)
    (hdb1 : w1.dbOk) (hdb2 : w2.dbOk)
    (hprobe1 : w1.probe = .response (some hdr)) (hprobe2 : w2.probe = .response (some hdr))
    (hrender : w1.renderSucceeds h)
    (hfirst : ∀ e, selectByUrl s (canonicalUrl host path) = some e →
      e.updated < lastModifiedStamp lib hdr)
    (hclock : lastModifiedStamp lib hdr ≤ w1.now) :
    (requestTwice lib w1 w2 host chromeHost chromePort path s).1.value = some h ∧
    (requestTwice lib w1 w2 host chromeHost chromePort path s).2.value = some h ∧
    renders (requestTwice lib w1 w2 host chromeHost chromePort path s).1.trace = 1 ∧
    renders (requestTwice lib w1 w2 host chromeHost chromePort path s).2.trace = 0 ∧
    (∃ id, selectByUrl (requestTwice lib w1 w2 host chromeHost chromePort path s).1.store
        (canonicalUrl host path) = some ⟨id, canonicalUrl host path, w1.now, h⟩ ∧
      ⟨id, canonicalUrl host path, w1.now, h⟩ ∈
        (requestTwice lib w1 w2 host chromeHost chromePort path s).1.store) ∧
    (requestTwice lib w1 w2 host chromeHost chromePort path s).2.store =
      (requestTwice lib w1 w2 host chromeHost chromePort path s).1.store := by
  obtain ⟨hok, rfl⟩ := hrender
  -- the table after the first call is some `s1` without the url, plus the new row
  have key : ∃ s1 t1, (∀ r ∈ s1, 0 < r.id) ∧ (∀ r ∈ s1, r.url ≠ canonicalUrl host path) ∧
      renders t1 = 1 ∧
      parseUrl lib w1 host chromeHost chromePort path s =
        ⟨some w1.pageSource, insertRow s1 (canonicalUrl host path) w1.pageSource w1.now, t1⟩ := by
    cases hsel : selectByUrl s (canonicalUrl host path) with
    | none =>
      refine ⟨s, _, hpos, (selectByUrl_eq_none_iff s _).1 hsel, ?_,
        parseUrl_miss_ok lib w1 host chromeHost chromePort path s hsel hdb1 hok⟩
      simp [lookupTrace, renderTrace, renders, Event.isRender]
    | some e =>
      obtain ⟨hmem, hurl⟩ := selectByUrl_some hsel
      refine ⟨deleteById s e.id, _, ?_, ?_, ?_,
        parseUrl_stale_ok lib w1 host chromeHost chromePort path s e hdr hsel (hpos e hmem)
          hdb1 hprobe1 (hfirst e hsel) hok⟩
      · intro r hr
        exact hpos r (List.mem_of_mem_filter hr)
      · intro r hr hru
        have := not_mem_urls_deleteById huniq hmem
        rw [hurl] at this
        exact this (List.mem_map.2 ⟨r, hr, hru⟩)
      · simp [lookupTrace, renderTrace, renders, Event.isRender]
  obtain ⟨s1, t1, hpos1, hno1, hr1, hrun1⟩ := key
  have hsel2 : selectByUrl (insertRow s1 (canonicalUrl host path) w1.pageSource w1.now)
      (canonicalUrl host path) =
      some ⟨nextRowid s1, canonicalUrl host path, w1.now, w1.pageSource⟩ :=
    selectByUrl_append_new (n := ⟨nextRowid s1, canonicalUrl host path, w1.now, w1.pageSource⟩)
      hno1
  have hrun2 := parseUrl_fresh lib w2 host chromeHost chromePort path _ _ hdr hsel2
    (nextRowid_pos hpos1) hdb2 hprobe2 hclock
  simp only [requestTwice, hrun1, hrun2]
  refine ⟨trivial, trivial, hr1, ?_, ⟨nextRowid s1, hsel2, by simp [insertRow]⟩, trivial⟩
  simp [lookupTrace, renders, Event.isRender]

theorem C5_witness :
    (requestTwice sampleLib sampleWorld sampleWorld "example.com" "localhost" "9222" "/page"
      []).1.value = some "<html>A</html>" ∧
    (requestTwice sampleLib sampleWorld sampleWorld "example.com" "localhost" "9222" "/page"
      []).2.value = some "<html>A</html>" ∧
    renders (requestTwice sampleLib sampleWorld sampleWorld "example.com" "localhost" "9222"
      "/page" []).1.trace = 1 ∧
    renders (requestTwice sampleLib sampleWorld sampleWorld "example.com" "localhost" "9222"
      "/page" []).2.trace = 0 :=
  have key := C5_repeated_request_renders_once sampleLib sampleWorld sampleWorld "example.com"
    "localhost" "9222" "/page" [] "Thu, 01 Jan 1970 00:03:20 GMT" "<html>A</html>"
    (by simp) (by simp) (fun _ => rfl) (fun _ => rfl) rfl rfl ⟨fun _ => rfl, rfl⟩
    (by decide) (by decide)
  ⟨key.1, key.2.1, key.2.2.1, key.2.2.2.1⟩

/-- C6, as stated, fails: with the entry `e` in the table, a failed HEAD probe
and a response without Last-Modified header both make `parseUrl` panic, so
`e.html` is not returned and the request fails. -/
theorem C6_counterexample :
    selectByUrl [⟨1, "https://example.com/page", 200, "<html>A</html>"⟩]
      (canonicalUrl "example.com" "/page") =
      some ⟨1, "https://example.com/page", 200, "<html>A</html>"⟩ ∧
    (parseUrl sampleLib ⟨fun _ => false, .failed, fun _ => false, "<html>B</html>", 300, 1⟩
      "example.com" "localhost" "9222" "/page"
      [⟨1, "https://example.com/page", 200, "<html>A</html>"⟩]).value = none ∧
    (parseUrl sampleLib
      ⟨fun _ => false, .response none, fun _ => false, "<html>B</html>", 300, 1⟩
      "example.com" "localhost" "9222" "/page"
      [⟨1, "https://example.com/page", 200, "<html>A</html>"⟩]).value = none := by
  decide

/-- C6 (amended): a failed probe fails the request. If the lookup selects the
entry `e` (positive id) and the HEAD request returns an error, then, whatever
else the outside answers, `parseUrl` panics (it returns no HTML), never enters
`fetchPrerender`, issues no delete and no insert, and leaves the table as it
was. -/
theorem C6_probe_failure_fails_request (lib : StdLib) (w : World)
    (host chromeHost chromePort path : String) (s : List Row) (e : Row)
    (hsel : selectByUrl s (canonicalUrl host path) = some e) (hpos : 0 < e.id)
    (hprobe : w.probe = .failed) :
    (parseUrl lib w host chromeHost chromePort path s).value = none ∧
    renders (parseUrl lib w host chromeHost chromePort path s).trace = 0 ∧
    (parseUrl lib w host chromeHost chromePort path s).trace.all
      (fun ev => !ev.isDelete && !ev.isInsert) = true ∧
    (parseUrl lib w host chromeHost chromePort path s).store = s := by
  cases h1 : w.dbErr .sqlOpen
  swap
  · simp [parseUrl, startDb, checkForExistingPrerender, checkError, emit, deferred, getStore,
      setStore, goPanic, bind_apply, M.bind, pure_apply, M.pure, h1, renders, Event.isRender,
      Event.isDelete, Event.isInsert]
  cases h2 : w.dbErr .createTable
  swap
  · simp [parseUrl, startDb, checkForExistingPrerender, checkError, emit, deferred, getStore,
      setStore, goPanic, bind_apply, M.bind, pure_apply, M.pure, h1, h2, renders,
      Event.isRender, Event.isDelete, Event.isInsert]
  cases h3 : w.dbErr .query
  swap
  · simp [parseUrl, startDb, checkForExistingPrerender, checkError, emit, deferred, getStore,
      setStore, goPanic, bind_apply, M.bind, pure_apply, M.pure, h1, h2, h3, renders,
      Event.isRender, Event.isDelete, Event.isInsert]
  cases h4 : w.dbErr .scan
  swap
  · simp [parseUrl, startDb, checkForExistingPrerender, checkError, emit, deferred, getStore,
      setStore, goPanic, bind_apply, M.bind, pure_apply, M.pure, h1, h2, h3, h4, hsel, renders,
      Event.isRender, Event.isDelete, Event.isInsert]
  cases h5 : w.dbErr .rowsErr
  swap
  · simp [parseUrl, startDb, checkForExistingPrerender, checkError, emit, deferred, getStore,
      setStore, goPanic, bind_apply, M.bind, pure_apply, M.pure, h1, h2, h3, h4, h5, hsel,
      renders, Event.isRender, Event.isDelete, Event.isInsert]
  simp [parseUrl, startDb, checkForExistingPrerender, checkError, emit, deferred, getStore,
    setStore, goPanic, bind_apply, M.bind, pure_apply, M.pure, h1, h2, h3, h4, h5, hsel, hpos,
    hprobe, renders, Event.isRender, Event.isDelete, Event.isInsert]

theorem C6_witness :
    selectByUrl [⟨1, "https://example.com/page", 200, "<html>A</html>"⟩]
      (canonicalUrl "example.com" "/page") =
      some ⟨1, "https://example.com/page", 200, "<html>A</html>"⟩ ∧
    (parseUrl sampleLib ⟨fun _ => false, .failed, fun _ => false, "<html>B</html>", 300, 1⟩
      "example.com" "localhost" "9222" "/page"
      [⟨1, "https://example.com/page", 200, "<html>A</html>"⟩]).store =
      [⟨1, "https://example.com/page", 200, "<html>A</html>"⟩] :=
  ⟨by decide,
   (C6_probe_failure_fails_request sampleLib
      ⟨fun _ => false, .failed, fun _ => false, "<html>B</html>", 300, 1⟩
      "example.com" "localhost" "9222" "/page"
      [⟨1, "https://example.com/page", 200, "<html>A</html>"⟩]
      ⟨1, "https://example.com/page", 200, "<html>A</html>"⟩ (by decide) (by decide)
      rfl).2.2.2⟩

/-- C7: a failed render fetch writes nothing. If the SQLite calls succeed and
some browser call of the render fetch fails (navigation, stability wait, or any
other), then: on a miss (the lookup finds no row, or a row the program does not
accept as existing) `parseUrl` panics, issues no insert and leaves the table
unchanged; on a stale hit of the entry `e` (positive id, Last-Modified time
strictly greater than `e.updated`) `parseUrl` panics, issues no insert, and the
table afterwards is the table before without the rows of id `e.id`, which,
ids being a primary key, is the table before without `e`; `e` is not
restored. -/
theorem C7_failed_render_writes_nothing (lib : StdLib) (w : World)
    (host chromeHost chromePort path : String) (s : List Row)
    (hdb : w.dbOk) (hfail : ∃ st, w.browserErr st = true) :
    ((∀ e, selectByUrl s (canonicalUrl host path) = some e → e.id ≤ 0) →
      (parseUrl lib w host chromeHost chromePort path s).value = none ∧
      (parseUrl lib w host chromeHost chromePort path s).trace.all
        (fun ev => !ev.isInsert) = true ∧
      (parseUrl lib w host chromeHost chromePort path s).store = s) ∧
    (∀ e hdr, selectByUrl s (canonicalUrl host path) = some e → 0 < e.id →
      w.probe = .response (some hdr) → e.updated < lastModifiedStamp lib hdr →
      (parseUrl lib w host chromeHost chromePort path s).value = none ∧
      (parseUrl lib w host chromeHost chromePort path s).trace.all
        (fun ev => !ev.isInsert) = true ∧
      (parseUrl lib w host chromeHost chromePort path s).store = deleteById s e.id ∧
      ((s.map Row.id).Nodup →
        (parseUrl lib w host chromeHost chromePort path s).store = s.erase e) ∧
      e ∉ (parseUrl lib w host chromeHost chromePort path s).store) := by
  constructor
  · intro hmiss
    obtain ⟨t, ht, hrun⟩ :=
      parseUrl_miss_render_fails lib w host chromeHost chromePort path s hmiss hdb hfail
    rw [hrun]
    refine ⟨rfl, ?_, rfl⟩
    have := all_inFetch_not_insert ht
    simp only [List.all_append, this, lookupTrace]
    simp [Event.isInsert]
  · intro e hdr hsel hpos hprobe hstale
    obtain ⟨t, ht, hrun⟩ := parseUrl_stale_render_fails lib w host chromeHost chromePort path
      s e hdr hsel hpos hdb hprobe hstale hfail
    rw [hrun]
    refine ⟨rfl, ?_, rfl, ?_, not_mem_deleteById s e⟩
    · have := all_inFetch_not_insert ht
      simp only [List.all_append, this, lookupTrace]
      simp [Event.isInsert]
    · intro hpk
      exact deleteById_eq_erase hpk (selectByUrl_some hsel).1

theorem C7_witness :
    navFailWorld.browserErr .navigate = true ∧
    selectByUrl [⟨1, "https://example.com/page", 100, "<html>old</html>"⟩]
      (canonicalUrl "example.com" "/page") =
      some ⟨1, "https://example.com/page", 100, "<html>old</html>"⟩ ∧
    (parseUrl sampleLib navFailWorld "example.com" "localhost" "9222" "/page" []).store = [] ∧
    (parseUrl sampleLib navFailWorld "example.com" "localhost" "9222" "/page"
      [⟨1, "https://example.com/page", 100, "<html>old</html>"⟩]).store =
      deleteById [⟨1, "https://example.com/page", 100, "<html>old</html>"⟩] 1 :=
  ⟨rfl, by decide,
   ((C7_failed_render_writes_nothing sampleLib navFailWorld "example.com" "localhost" "9222"
      "/page" [] (fun _ => rfl) ⟨.navigate, rfl⟩).1 (by decide)).2.2,
   ((C7_failed_render_writes_nothing sampleLib navFailWorld "example.com" "localhost" "9222"
      "/page" [⟨1, "https://example.com/page", 100, "<html>old</html>"⟩] (fun _ => rfl)
      ⟨.navigate, rfl⟩).2 ⟨1, "https://example.com/page", 100, "<html>old</html>"⟩
      "Thu, 01 Jan 1970 00:03:20 GMT" (by decide) (by decide) rfl (by decide)).2.2.1⟩

/-! ## C8: session teardown -/

/-- C8 fails on the code: on each failure path named in the claim (tab
creation, navigation, stability wait, page-source extraction) the session is
started (`auto.Start()` is called and returns no error), `fetchPrerender`
panics in `checkError`, and `auto.Shutdown()` is never called; only the run
without failure reaches the shutdown. -/
theorem C8_failure_paths_skip_shutdown :
    ((fetchFailingAt .newTab).value = none ∧ sessionLeaked (fetchFailingAt .newTab)) ∧
    ((fetchFailingAt .navigate).value = none ∧ sessionLeaked (fetchFailingAt .navigate)) ∧
    ((fetchFailingAt .waitStable).value = none ∧ sessionLeaked (fetchFailingAt .waitStable)) ∧
    ((fetchFailingAt .getPageSource).value = none ∧
      sessionLeaked (fetchFailingAt .getPageSource)) ∧
    Event.browser .shutdown ∈
      (fetchPrerender sampleWorld "localhost" "9222" "https://example.com/page" []).trace := by
  decide

/-! ## C9: one row per url -/

/-- C9: under sequential requests the table keeps at most one row per url.
For every table whose ids are positive and whose urls are pairwise distinct,
and for every answer of the outside (any SQLite error, any probe outcome, any
browser outcome), the table left by `parseUrl` has pairwise distinct urls. -/
theorem C9_parseUrl_keeps_one_row_per_url (lib : StdLib) (w : World)
    (host chromeHost chromePort path : String) (s : List Row)
    (hpos : ∀ r ∈ s, 0 < r.id) (huniq : (s.map Row.url).Nodup) :
    (((parseUrl lib w host chromeHost chromePort path) s).store.map Row.url).Nodup := by
  rcases parseUrl_store lib w host chromeHost chromePort path s with
    h | ⟨hmiss, h⟩ | ⟨e, hsel, -, h | h⟩
  · rw [h]; exact huniq
  · rw [h]
    apply insertRow_urls_nodup huniq
    cases hsel : selectByUrl s (canonicalUrl host path) with
    | none => exact not_mem_urls_of_select_none hsel
    | some e => exact absurd (hpos e (selectByUrl_some hsel).1) (hmiss e hsel)
  · rw [h]; exact huniq.sublist (deleteById_urls_sublist s e.id)
  · rw [h]
    apply insertRow_urls_nodup (huniq.sublist (deleteById_urls_sublist s e.id))
    have := not_mem_urls_deleteById huniq (selectByUrl_some hsel).1
    rwa [(selectByUrl_some hsel).2] at this

theorem C9_witness :
    (∀ r ∈ [(⟨1, "https://example.com/page", 100, "<html>A</html>"⟩ : Row)], 0 < r.id) ∧
    (([(⟨1, "https://example.com/page", 100, "<html>A</html>"⟩ : Row)]).map Row.url).Nodup ∧
    (((parseUrl sampleLib sampleWorld "example.com" "localhost" "9222" "/page")
      [⟨1, "https://example.com/page", 100, "<html>A</html>"⟩]).store.map Row.url).Nodup :=
  ⟨by decide, by decide,
   C9_parseUrl_keeps_one_row_per_url sampleLib sampleWorld "example.com" "localhost" "9222"
     "/page" [⟨1, "https://example.com/page", 100, "<html>A</html>"⟩] (by decide) (by decide)⟩

/-! ## C10: the host gate is a search -/

/-- C10: the host gate of `handler` is an unanchored search. Let the
allow-pattern `p` be configured and compile to `re`. (1) A request whose form
parses reaches `parseUrl` exactly when `re` matches some (possibly empty)
substring `mid` of the host, read between its neighbours in the host. (2) If
`re` has no anchors, or other zero-width assertions, and the host `h` is
accepted, then every host `a ++ h ++ b` is accepted. (3) If `re` is the empty
match, every host is accepted. (4) The reference compiler turns the empty
pattern into the empty match, so with `ALLOWED_HOSTS` set to the empty string
every request whose form parses is accepted; it turns `example\.com` into an
expression without anchors that does not match the whole of
`evil-example.com.attacker.net`; and the anchored pattern `^example\.com$` is
found in `example.com` and not in `evil-example.com.attacker.net`, so (2) needs
its premise. -/
theorem C10_host_gate_is_unanchored_search (lib : StdLib) (env : Environ) (p : String)
    (re : Regex) (hp : env.allowedHosts = some p) (hre : lib.regexpCompile p = some re) :
    (∀ (w : World) (r : Request) (s : List Row), r.formErr = false →
      (handlerAccepts lib w env r s = true ↔
        ∃ pre mid post, r.host.toList = pre ++ mid ++ post ∧
          re.matchesIn pre.getLast? mid post.head? = true)) ∧
    (re.anchorFree = true →
      ∀ (w w2 : World) (s s2 : List Row) (h path path2 a b : String),
        handlerAccepts lib w env ⟨false, h, path⟩ s = true →
        handlerAccepts lib w2 env ⟨false, a ++ h ++ b, path2⟩ s2 = true) ∧
    (re = .emptyMatch →
      ∀ (w : World) (r : Request) (s : List Row), r.formErr = false →
        handlerAccepts lib w env r s = true) ∧
    (∀ (w : World) (r : Request) (s : List Row) (ch cp : Option String), r.formErr = false →
      handlerAccepts sampleLib w ⟨some "", ch, cp⟩ r s = true) ∧
    compileFragment "example\\.com" = some exampleCom ∧ exampleCom.anchorFree = true ∧
    exampleCom.matchesIn none "evil-example.com.attacker.net".toList none = false ∧
    (compileFragment "^example\\.com$").map
      (fun anchored =>
        (anchored.found "example.com", anchored.found "evil-example.com.attacker.net")) =
      some (true, false) := by
  refine ⟨?_, ?_, ?_, ?_, by decide, by decide, by decide, by decide⟩
  · intro w r s hform
    rw [handlerAccepts_eq_found lib w env r s p re hform hp hre]
    exact found_iff re r.host
  · intro hfree w w2 s s2 h path path2 a b hacc
    rw [handlerAccepts_eq_found lib w env _ s p re rfl hp hre] at hacc
    rw [handlerAccepts_eq_found lib w2 env _ s2 p re rfl hp hre]
    exact found_mono hfree a h b hacc
  · intro hempty w r s hform
    rw [handlerAccepts_eq_found lib w env r s p re hform hp hre, hempty]
    exact found_emptyMatch r.host
  · intro w r s ch cp hform
    rw [handlerAccepts_eq_found sampleLib w ⟨some "", ch, cp⟩ r s "" .emptyMatch hform rfl
      (by decide)]
    exact found_emptyMatch r.host

theorem C10_witness :
    sampleLib.regexpCompile "example\\.com" = some exampleCom ∧
    handlerAccepts sampleLib sampleWorld ⟨some "example\\.com", none, none⟩
      ⟨false, "example.com", "/page"⟩ [] = true ∧
    handlerAccepts sampleLib sampleWorld ⟨some "example\\.com", none, none⟩
      ⟨false, "evil-" ++ "example.com" ++ ".attacker.net", "/page"⟩ [] = true ∧
    handlerAccepts sampleLib sampleWorld ⟨some "example\\.com", none, none⟩
      ⟨false, "evil.com", "/page"⟩ [] = false :=
  have hre : sampleLib.regexpCompile "example\\.com" = some exampleCom := by decide
  have hacc : handlerAccepts sampleLib sampleWorld ⟨some "example\\.com", none, none⟩
      ⟨false, "example.com", "/page"⟩ [] = true := by decide
  ⟨hre, hacc,
   (C10_host_gate_is_unanchored_search sampleLib ⟨some "example\\.com", none, none⟩
      "example\\.com" exampleCom rfl hre).2.1 (by decide) sampleWorld sampleWorld [] []
      "example.com" "/page" "/page" "evil-" ".attacker.net" hacc,
   by decide⟩

end Prerender
